import Mathlib

/-!
# TriFactor: bearing-capacity factors of `mathcore/classical_methods.cc`

The five functions `terzaghi`, `meyerhof`, `vesic`, `hansen` and `EC7` take a
friction angle in degrees and return the three factors `Nc`, `Nq`, `Ngamma`.
Their bodies are embedded twice, each local variable kept as a `let` in the
source's order and with the source's grouping of the arithmetic.

Exact embedding (`TriFactor.terzaghi` and so on).  The expressions the source
writes, evaluated in exact real arithmetic: `exp`, `tan`, `cos`, `sin` are the
real functions, `M_PI` is `π`, `pow (x, 2)` is `x ^ 2`, a decimal literal is the
rational it denotes, `c ? a : b` is `if c then a else b`, and the
`unordered_map` with the keys `"Nc"`, `"Nq"`, `"Ngamma"` is the record
`FactorSet`.  Real division by zero is `0` in Lean, where the C++ yields an
infinity or a NaN.  The theorems stated for every real `phi` compare two
expressions under that same convention; every other theorem is stated at angles
of `[0, 90)`, where no divisor that is evaluated vanishes.  This embedding says
what the formulas are worth, not what the rounded program returns; a theorem
that holds of the formulas only says "in exact real arithmetic".

IEEE embedding (`TriFactor.IEEE.terzaghi` and so on).  The same bodies on
binary64 values, every sum, difference, product and quotient rounded to
nearest, ties to even, with the `<cmath>` functions as a parameter.  It says
what the program returns, and is used where the returned doubles do not follow
the formulas: at `phi = 0` and at the least positive doubles.
-/

open Real

namespace TriFactor

/-- The returned map: the values stored under `"Nc"`, `"Nq"` and `"Ngamma"`. -/
@[ext]
structure FactorSet where
  Nc : ℝ
  Nq : ℝ
  Ngamma : ℝ

/-- The constant `M_PI` of `<cmath>`, in exact real arithmetic: `π` itself. -/
noncomputable def M_PI : ℝ := Real.pi

/-- Body of `terzaghi (double phi)`, lines 7-26, in exact real arithmetic. -/
noncomputable def terzaghi (phi : ℝ) : FactorSet :=
  let exponent := Real.exp (M_PI * (0.75 - (phi / 360.0)) * Real.tan (phi * M_PI / 180.0))
  let numerator_q := exponent * exponent
  let denominator_q := 2 * (Real.cos ((45.0 + (phi / 2.0)) * M_PI / 180.0)) ^ 2
  let Nq := numerator_q / denominator_q
  let Nc := if phi > 0 then ((Nq - 1) * (1 / Real.tan (phi * M_PI / 180.0))) else 5.71
  let numerator_g := 2 * (Nq + 1) * Real.tan (phi * M_PI / 180.0)
  let denominator_g := 1 + (0.4 * Real.sin (4 * phi * M_PI / 180.0))
  let Ngamma := numerator_g / denominator_g
  { Nc := Nc, Nq := Nq, Ngamma := Ngamma }

/-- Body of `meyerhof (double phi)`, lines 29-43, in exact real arithmetic. -/
noncomputable def meyerhof (phi : ℝ) : FactorSet :=
  let Nq := Real.exp (M_PI * Real.tan (phi * M_PI / 180.0))
    * (Real.tan ((45.0 + (phi / 2.0)) * M_PI / 180.0)) ^ 2
  let Nc := if phi > 0 then ((Nq - 1) * (1 / Real.tan (phi * M_PI / 180.0))) else 5.14
  let Ngamma := (Nq - 1) * Real.tan (phi * 1.4 * M_PI / 180.0)
  { Nc := Nc, Nq := Nq, Ngamma := Ngamma }

/-- Body of `vesic (double phi)`, lines 46-60, in exact real arithmetic. -/
noncomputable def vesic (phi : ℝ) : FactorSet :=
  let Nq := Real.exp (M_PI * Real.tan (phi * M_PI / 180.0))
    * (Real.tan ((45.0 + (phi / 2.0)) * M_PI / 180.0)) ^ 2
  let Nc := if phi > 0 then ((Nq - 1) * (1 / Real.tan (phi * M_PI / 180.0))) else 5.14
  let Ngamma := 2 * (Nq + 1) * Real.tan (phi * M_PI / 180.0)
  { Nc := Nc, Nq := Nq, Ngamma := Ngamma }

/-- Body of `hansen (double phi)`, lines 63-77, in exact real arithmetic. -/
noncomputable def hansen (phi : ℝ) : FactorSet :=
  let Nq := Real.exp (M_PI * Real.tan (phi * M_PI / 180.0))
    * (Real.tan ((45.0 + (phi / 2.0)) * M_PI / 180.0)) ^ 2
  let Nc := if phi > 0 then ((Nq - 1) * (1 / Real.tan (phi * M_PI / 180.0))) else 5.14
  let Ngamma := 1.5 * (Nq - 1) * Real.tan (phi * M_PI / 180.0)
  { Nc := Nc, Nq := Nq, Ngamma := Ngamma }

/-- Body of `EC7 (double phi)`, lines 80-94, in exact real arithmetic. -/
noncomputable def EC7 (phi : ℝ) : FactorSet :=
  let Nq := Real.exp (M_PI * Real.tan (phi * M_PI / 180.0))
    * (Real.tan ((45.0 + (phi / 2.0)) * M_PI / 180.0)) ^ 2
  let Nc := if phi > 0 then ((Nq - 1) * (1 / Real.tan (phi * M_PI / 180.0))) else 5.14
  let Ngamma := 2 * (Nq - 1) * Real.tan (phi * M_PI / 180.0)
  { Nc := Nc, Nq := Nq, Ngamma := Ngamma }

/-! ## The divisors of the source

The three non-constant divisors, named as the source names them. -/

/-- The local `denominator_q` of `terzaghi` (line 12), the divisor of `Nq`. -/
noncomputable def denominator_q (phi : ℝ) : ℝ :=
  2 * (Real.cos ((45.0 + (phi / 2.0)) * M_PI / 180.0)) ^ 2

/-- The local `denominator_g` of `terzaghi` (line 18), the divisor of `Ngamma`. -/
noncomputable def denominator_g (phi : ℝ) : ℝ :=
  1 + (0.4 * Real.sin (4 * phi * M_PI / 180.0))

/-- Angle convention of the specification: `angle_rad = angle_deg · π / 180`. -/
noncomputable def deg2rad (angle_deg : ℝ) : ℝ := angle_deg * π / 180

/-- Section 4.1, `Nq = exponent² / (2·cos²(45° + φ/2))` with
`exponent = e^(π·(0.75 − φ/360)·tan(φ))`. -/
noncomputable def terzaghi_Nq_closed_form (phi : ℝ) : ℝ :=
  let E := Real.exp (π * (0.75 - phi / 360) * Real.tan (deg2rad phi))
  E ^ 2 / (2 * Real.cos (deg2rad (45 + phi / 2)) ^ 2)

/-- Section 4.1: the three factors of Terzaghi's method. -/
noncomputable def terzaghi_closed_form (phi : ℝ) : FactorSet where
  Nc := if phi ≤ 0 then 5.71
    else (terzaghi_Nq_closed_form phi - 1) * (1 / Real.tan (deg2rad phi))
  Nq := terzaghi_Nq_closed_form phi
  Ngamma := 2 * (terzaghi_Nq_closed_form phi + 1) * Real.tan (deg2rad phi)
    / (1 + 0.4 * Real.sin (deg2rad (4 * phi)))

/-- Section 4.2, `Nq = e^(π·tan(φ)) · tan²(45° + φ/2)`, shared by Meyerhof,
Vesic, Hansen and EC7. -/
noncomputable def shared_Nq_closed_form (phi : ℝ) : ℝ :=
  Real.exp (π * Real.tan (deg2rad phi)) * Real.tan (deg2rad (45 + phi / 2)) ^ 2

/-- Section 4.2: the three factors of Meyerhof's method; the multiplier 1.4
applies to the angle in degrees. -/
noncomputable def meyerhof_closed_form (phi : ℝ) : FactorSet where
  Nc := if phi ≤ 0 then 5.14
    else (shared_Nq_closed_form phi - 1) * (1 / Real.tan (deg2rad phi))
  Nq := shared_Nq_closed_form phi
  Ngamma := (shared_Nq_closed_form phi - 1) * Real.tan (deg2rad (1.4 * phi))

/-! ## The source on IEEE-754 binary64

The same five bodies, this time on the doubles the program computes with.
A finite double is `(-1)^neg * m * 2^-1074`: every finite binary64 value is an
integer multiple of the least subnormal.  Sums, differences, products and
quotients are the exact results rounded to nearest, ties to even, with
overflow to an infinity, signed zeros and NaN, as IEEE-754 prescribes; no fused
multiply-add is formed.  The functions of `<cmath>` are not part of the
repository and no standard fixes their rounding, so they are a parameter
`Libm`; a theorem says which values of them it uses. -/

namespace IEEE

/-- A binary64 value; `fin neg m` is `(-1)^neg * m * 2^-1074`. -/
inductive Dbl where
  | fin (neg : Bool) (m : ℕ)
  | inf (neg : Bool)
  | nan
  deriving DecidableEq

/-- The number of units `2^-1074` in 1. -/
def unit : ℕ := 2 ^ 1074

/-- The integer nearest to `a / b`, ties to the even one. -/
def roundNE (a b : ℕ) : ℕ :=
  let t := a / b
  let r := a % b
  if 2 * r < b then t else if b < 2 * r then t + 1 else if t % 2 = 0 then t else t + 1

/-- The binade of `n` units: the largest `s` with `2^(52+s) ≤ n`, or 0 when
`n < 2^53`, found by bisection over `s < 4096`.  Doubles of that binade are the
multiples of `2^s` units. -/
def binade (n : ℕ) : ℕ :=
  [2048, 1024, 512, 256, 128, 64, 32, 16, 8, 4, 2, 1].foldl
    (fun s k => if 2 ^ (52 + s + k) ≤ n then s + k else s) 0

/-- The double nearest to `(-1)^neg * (a / b) * 2^-1074`, ties to even: 53
significant bits are kept, and a result of `2^1024` or more is an infinity. -/
def rnd (neg : Bool) (a b : ℕ) : Dbl :=
  let s := binade (a / b)
  let m := roundNE a (b * 2 ^ s) * 2 ^ s
  if m < 2 ^ 2098 then Dbl.fin neg m else Dbl.inf neg

/-- The product `x * y` of two doubles. -/
def fmul : Dbl → Dbl → Dbl
  | Dbl.fin s m, Dbl.fin t n => rnd (xor s t) (m * n) unit
  | Dbl.fin s m, Dbl.inf t => if m = 0 then Dbl.nan else Dbl.inf (xor s t)
  | Dbl.inf s, Dbl.fin t n => if n = 0 then Dbl.nan else Dbl.inf (xor s t)
  | Dbl.inf s, Dbl.inf t => Dbl.inf (xor s t)
  | Dbl.nan, _ => Dbl.nan
  | _, Dbl.nan => Dbl.nan

/-- The quotient `x / y` of two doubles. -/
def fdiv : Dbl → Dbl → Dbl
  | Dbl.fin s m, Dbl.fin t n =>
    if n = 0 then (if m = 0 then Dbl.nan else Dbl.inf (xor s t))
    else rnd (xor s t) (m * unit) n
  | Dbl.fin s _, Dbl.inf t => Dbl.fin (xor s t) 0
  | Dbl.inf s, Dbl.fin t _ => Dbl.inf (xor s t)
  | Dbl.inf _, Dbl.inf _ => Dbl.nan
  | Dbl.nan, _ => Dbl.nan
  | _, Dbl.nan => Dbl.nan

/-- The sum `x + y` of two doubles. -/
def fadd : Dbl → Dbl → Dbl
  | Dbl.fin s m, Dbl.fin t n =>
    if s = t then rnd s (m + n) 1
    else if n < m then rnd s (m - n) 1
    else if m < n then rnd t (n - m) 1
    else Dbl.fin false 0
  | Dbl.fin _ _, Dbl.inf t => Dbl.inf t
  | Dbl.inf s, Dbl.fin _ _ => Dbl.inf s
  | Dbl.inf s, Dbl.inf t => if s = t then Dbl.inf s else Dbl.nan
  | Dbl.nan, _ => Dbl.nan
  | _, Dbl.nan => Dbl.nan

/-- The negation `-x`. -/
def fneg : Dbl → Dbl
  | Dbl.fin s m => Dbl.fin (!s) m
  | Dbl.inf s => Dbl.inf (!s)
  | Dbl.nan => Dbl.nan

/-- The difference `x - y` of two doubles. -/
def fsub (x y : Dbl) : Dbl := fadd x (fneg y)

/-- The signed number of units of a finite double. -/
def signed (neg : Bool) (m : ℕ) : ℤ := if neg then -(m : ℤ) else (m : ℤ)

/-- The comparison `x < y`: false when either side is NaN, and `-0 < +0` is false. -/
def flt : Dbl → Dbl → Bool
  | Dbl.fin s m, Dbl.fin t n => decide (signed s m < signed t n)
  | Dbl.fin _ _, Dbl.inf t => !t
  | Dbl.inf s, Dbl.fin _ _ => s
  | Dbl.inf s, Dbl.inf t => s && !t
  | Dbl.nan, _ => false
  | _, Dbl.nan => false

/-- An integer constant converted to `double`. -/
def ofInt (n : ℕ) : Dbl := rnd false (n * unit) 1

/-- The decimal literal `n / d` as the compiler rounds it. -/
def lit (n d : ℕ) : Dbl := rnd false (n * unit) d

/-- The macro `M_PI` of `<cmath>`, the literal `3.14159265358979323846`. -/
def M_PI : Dbl := lit 314159265358979323846 (10 ^ 20)

/-- The functions of `<cmath>` the source calls. -/
structure Libm where
  exp : Dbl → Dbl
  tan : Dbl → Dbl
  cos : Dbl → Dbl
  sin : Dbl → Dbl
  pow : Dbl → Dbl → Dbl

/-- The returned map on doubles. -/
structure Factors where
  Nc : Dbl
  Nq : Dbl
  Ngamma : Dbl

/-- Body of `terzaghi (double phi)`, lines 7-26, on doubles. -/
def terzaghi (L : Libm) (phi : Dbl) : Factors :=
  let exponent := L.exp (fmul (fmul M_PI (fsub (lit 75 100) (fdiv phi (lit 360 1))))
    (L.tan (fdiv (fmul phi M_PI) (lit 180 1))))
  let numerator_q := fmul exponent exponent
  let denominator_q := fmul (ofInt 2)
    (L.pow (L.cos (fdiv (fmul (fadd (lit 45 1) (fdiv phi (lit 2 1))) M_PI) (lit 180 1)))
      (ofInt 2))
  let Nq := fdiv numerator_q denominator_q
  let Nc := if flt (ofInt 0) phi
    then fmul (fsub Nq (ofInt 1)) (fdiv (ofInt 1) (L.tan (fdiv (fmul phi M_PI) (lit 180 1))))
    else lit 571 100
  let numerator_g := fmul (fmul (ofInt 2) (fadd Nq (ofInt 1)))
    (L.tan (fdiv (fmul phi M_PI) (lit 180 1)))
  let denominator_g := fadd (ofInt 1)
    (fmul (lit 4 10) (L.sin (fdiv (fmul (fmul (ofInt 4) phi) M_PI) (lit 180 1))))
  let Ngamma := fdiv numerator_g denominator_g
  { Nc := Nc, Nq := Nq, Ngamma := Ngamma }

/-- Body of `meyerhof (double phi)`, lines 29-43, on doubles. -/
def meyerhof (L : Libm) (phi : Dbl) : Factors :=
  let Nq := fmul (L.exp (fmul M_PI (L.tan (fdiv (fmul phi M_PI) (lit 180 1)))))
    (L.pow (L.tan (fdiv (fmul (fadd (lit 45 1) (fdiv phi (lit 2 1))) M_PI) (lit 180 1)))
      (ofInt 2))
  let Nc := if flt (ofInt 0) phi
    then fmul (fsub Nq (ofInt 1)) (fdiv (ofInt 1) (L.tan (fdiv (fmul phi M_PI) (lit 180 1))))
    else lit 514 100
  let Ngamma := fmul (fsub Nq (ofInt 1))
    (L.tan (fdiv (fmul (fmul phi (lit 14 10)) M_PI) (lit 180 1)))
  { Nc := Nc, Nq := Nq, Ngamma := Ngamma }

/-- Body of `vesic (double phi)`, lines 46-60, on doubles. -/
def vesic (L : Libm) (phi : Dbl) : Factors :=
  let Nq := fmul (L.exp (fmul M_PI (L.tan (fdiv (fmul phi M_PI) (lit 180 1)))))
    (L.pow (L.tan (fdiv (fmul (fadd (lit 45 1) (fdiv phi (lit 2 1))) M_PI) (lit 180 1)))
      (ofInt 2))
  let Nc := if flt (ofInt 0) phi
    then fmul (fsub Nq (ofInt 1)) (fdiv (ofInt 1) (L.tan (fdiv (fmul phi M_PI) (lit 180 1))))
    else lit 514 100
  let Ngamma := fmul (fmul (ofInt 2) (fadd Nq (ofInt 1)))
    (L.tan (fdiv (fmul phi M_PI) (lit 180 1)))
  { Nc := Nc, Nq := Nq, Ngamma := Ngamma }

/-- Body of `hansen (double phi)`, lines 63-77, on doubles. -/
def hansen (L : Libm) (phi : Dbl) : Factors :=
  let Nq := fmul (L.exp (fmul M_PI (L.tan (fdiv (fmul phi M_PI) (lit 180 1)))))
    (L.pow (L.tan (fdiv (fmul (fadd (lit 45 1) (fdiv phi (lit 2 1))) M_PI) (lit 180 1)))
      (ofInt 2))
  let Nc := if flt (ofInt 0) phi
    then fmul (fsub Nq (ofInt 1)) (fdiv (ofInt 1) (L.tan (fdiv (fmul phi M_PI) (lit 180 1))))
    else lit 514 100
  let Ngamma := fmul (fmul (lit 15 10) (fsub Nq (ofInt 1)))
    (L.tan (fdiv (fmul phi M_PI) (lit 180 1)))
  { Nc := Nc, Nq := Nq, Ngamma := Ngamma }

/-- Body of `EC7 (double phi)`, lines 80-94, on doubles. -/
def EC7 (L : Libm) (phi : Dbl) : Factors :=
  let Nq := fmul (L.exp (fmul M_PI (L.tan (fdiv (fmul phi M_PI) (lit 180 1)))))
    (L.pow (L.tan (fdiv (fmul (fadd (lit 45 1) (fdiv phi (lit 2 1))) M_PI) (lit 180 1)))
      (ofInt 2))
  let Nc := if flt (ofInt 0) phi
    then fmul (fsub Nq (ofInt 1)) (fdiv (ofInt 1) (L.tan (fdiv (fmul phi M_PI) (lit 180 1))))
    else lit 514 100
  let Ngamma := fmul (fmul (ofInt 2) (fsub Nq (ofInt 1)))
    (L.tan (fdiv (fmul phi M_PI) (lit 180 1)))
  { Nc := Nc, Nq := Nq, Ngamma := Ngamma }

end IEEE

/-! ## Unfolding lemmas -/

theorem terzaghi_Nq (phi : ℝ) :
    (terzaghi phi).Nq =
      Real.exp (π * (0.75 - phi / 360) * Real.tan (phi * π / 180))
        * Real.exp (π * (0.75 - phi / 360) * Real.tan (phi * π / 180))
        / (2 * Real.cos ((45 + phi / 2) * π / 180) ^ 2) := by
  simp only [terzaghi, M_PI]
  norm_num

theorem meyerhof_Nq (phi : ℝ) :
    (meyerhof phi).Nq =
      Real.exp (π * Real.tan (phi * π / 180)) * Real.tan ((45 + phi / 2) * π / 180) ^ 2 := by
  simp only [meyerhof, M_PI]
  norm_num

/-- C2: for every real `phi`, `meyerhof`, `vesic`, `hansen` and `EC7` return
the same `Nq` and the same `Nc`. -/
theorem shared_Nq_Nc (phi : ℝ) :
    (vesic phi).Nq = (meyerhof phi).Nq ∧ (hansen phi).Nq = (meyerhof phi).Nq ∧
    (EC7 phi).Nq = (meyerhof phi).Nq ∧
    (vesic phi).Nc = (meyerhof phi).Nc ∧ (hansen phi).Nc = (meyerhof phi).Nc ∧
    (EC7 phi).Nc = (meyerhof phi).Nc :=
  ⟨rfl, rfl, rfl, rfl, rfl, rfl⟩

/-! ## Angles of the open range `(0, 90)` in radians -/

theorem rad_pos {phi : ℝ} (h : 0 < phi) : 0 < phi * π / 180 := by
  have := Real.pi_pos
  positivity

theorem rad_lt_half_pi {phi : ℝ} (h : phi < 90) : phi * π / 180 < π / 2 := by
  have := Real.pi_pos
  nlinarith

theorem rad_lt_rad {phi1 phi2 : ℝ} (h : phi1 < phi2) : phi1 * π / 180 < phi2 * π / 180 := by
  have := Real.pi_pos
  nlinarith

theorem half_rad_gt {phi : ℝ} (h : 0 < phi) : π / 4 < (45 + phi / 2) * π / 180 := by
  have := Real.pi_pos
  nlinarith

theorem half_rad_lt {phi : ℝ} (h : phi < 90) : (45 + phi / 2) * π / 180 < π / 2 := by
  have := Real.pi_pos
  nlinarith

theorem tan_rad_pos {phi : ℝ} (h0 : 0 < phi) (h90 : phi < 90) : 0 < Real.tan (phi * π / 180) :=
  Real.tan_pos_of_pos_of_lt_pi_div_two (rad_pos h0) (rad_lt_half_pi h90)

/-- Subtraction formula for the tangent, in product form. -/
theorem tan_sub_eq {x y : ℝ} (hx : Real.cos x ≠ 0) (hy : Real.cos y ≠ 0)
    (hd : Real.cos (y - x) ≠ 0) :
    Real.tan y - Real.tan x = Real.tan (y - x) * (1 + Real.tan x * Real.tan y) := by
  have hc : Real.cos (y - x) = Real.cos y * Real.cos x + Real.sin y * Real.sin x :=
    Real.cos_sub y x
  rw [hc] at hd
  rw [Real.tan_eq_sin_div_cos (y - x), Real.tan_eq_sin_div_cos x, Real.tan_eq_sin_div_cos y,
    Real.sin_sub, Real.cos_sub]
  field_simp
  ring

theorem sqrt_three_gt : (1.7320508 : ℝ) < Real.sqrt 3 := by
  rw [Real.lt_sqrt (by norm_num)]
  norm_num

theorem sqrt_three_lt : Real.sqrt 3 < (1.7320509 : ℝ) := by
  rw [Real.sqrt_lt' (by norm_num)]
  norm_num

theorem pi_div_sqrt_three_bounds :
    (1.813798 : ℝ) < π / Real.sqrt 3 ∧ π / Real.sqrt 3 < 1.8138 := by
  have h1 := sqrt_three_gt
  have h2 := sqrt_three_lt
  have h3 := Real.pi_gt_d6
  have h4 := Real.pi_lt_d6
  have hs : (0 : ℝ) < Real.sqrt 3 := by linarith
  constructor
  · rw [lt_div_iff₀ hs]
    nlinarith
  · rw [div_lt_iff₀ hs]
    nlinarith

/-- Lower bound from the partial sum of degree 9 of the exponential series. -/
theorem exp_lower : (2.47663 : ℝ) < Real.exp 0.906899 := by
  have h := Real.sum_le_exp_of_nonneg (x := 0.906899) (by norm_num) 10
  refine lt_of_lt_of_le ?_ h
  simp only [Finset.sum_range_succ, Finset.sum_range_zero, Nat.factorial]
  norm_num

/-- Upper bound from the partial sum of degree 9 and the remainder term. -/
theorem exp_upper : Real.exp 0.9069 < (2.476634 : ℝ) := by
  have h := Real.exp_bound' (x := 0.9069) (by norm_num) (by norm_num) (n := 10) (by norm_num)
  refine lt_of_le_of_lt h ?_
  simp only [Finset.sum_range_succ, Finset.sum_range_zero, Nat.factorial]
  norm_num

/-- The value `3 exp (π / √3)` lies between 18.40108 and 18.40115. -/
theorem three_exp_bounds :
    (18.40108 : ℝ) < 3 * Real.exp (π / Real.sqrt 3) ∧
      3 * Real.exp (π / Real.sqrt 3) < 18.40115 := by
  obtain ⟨hl, hu⟩ := pi_div_sqrt_three_bounds
  have hsplit : Real.exp (π / Real.sqrt 3)
      = Real.exp (π / Real.sqrt 3 / 2) * Real.exp (π / Real.sqrt 3 / 2) := by
    rw [← Real.exp_add]
    congr 1
    ring
  have h1 : (2.47663 : ℝ) < Real.exp (π / Real.sqrt 3 / 2) :=
    lt_trans exp_lower (Real.exp_lt_exp.mpr (by linarith))
  have h2 : Real.exp (π / Real.sqrt 3 / 2) < (2.476634 : ℝ) :=
    lt_trans (Real.exp_lt_exp.mpr (by linarith)) exp_upper
  rw [hsplit]
  constructor <;> nlinarith

theorem tan_rad_thirty : Real.tan ((30 : ℝ) * π / 180) = 1 / Real.sqrt 3 := by
  rw [show (30 : ℝ) * π / 180 = π / 6 by ring]
  exact Real.tan_pi_div_six

theorem tan_half_rad_thirty : Real.tan ((45 + (30 : ℝ) / 2) * π / 180) = Real.sqrt 3 := by
  rw [show (45 + (30 : ℝ) / 2) * π / 180 = π / 3 by ring]
  exact Real.tan_pi_div_three

/-- At 30 degrees the shared `Nq` is `3 exp (π / √3)`. -/
theorem meyerhof_Nq_thirty : (meyerhof 30).Nq = 3 * Real.exp (π / Real.sqrt 3) := by
  rw [meyerhof_Nq, tan_rad_thirty, tan_half_rad_thirty, Real.sq_sqrt (by norm_num)]
  rw [show π * (1 / Real.sqrt 3) = π / Real.sqrt 3 by ring]
  ring

/-- At 30 degrees the shared `Nc` is `(Nq - 1) √3`. -/
theorem meyerhof_Nc_thirty :
    (meyerhof 30).Nc = (3 * Real.exp (π / Real.sqrt 3) - 1) * Real.sqrt 3 := by
  have hq := meyerhof_Nq_thirty
  have hc : (meyerhof 30).Nc
      = ((meyerhof 30).Nq - 1) * (1 / Real.tan ((30 : ℝ) * π / 180)) := by
    simp only [meyerhof, M_PI]
    norm_num
  rw [hc, hq, tan_rad_thirty]
  simp

/-! ## C5: `Nq` and `Nc` at `phi = 30` -/

/-- C5: at `phi = 30`, `meyerhof`, `vesic`, `hansen` and `EC7` each return `Nq`
within 0.0005 of 18.401 and `Nc` within 0.005 of 30.14; the exact values are
`Nq = 3 exp (π / √3)` and `Nc = (Nq - 1) √3`. -/
theorem Nq_Nc_at_thirty :
    ((meyerhof 30).Nq = 3 * Real.exp (π / Real.sqrt 3) ∧
      (meyerhof 30).Nc = ((meyerhof 30).Nq - 1) * Real.sqrt 3) ∧
    (|(meyerhof 30).Nq - 18.401| < 0.0005 ∧ |(meyerhof 30).Nc - 30.14| < 0.005) ∧
    (|(vesic 30).Nq - 18.401| < 0.0005 ∧ |(vesic 30).Nc - 30.14| < 0.005) ∧
    (|(hansen 30).Nq - 18.401| < 0.0005 ∧ |(hansen 30).Nc - 30.14| < 0.005) ∧
    (|(EC7 30).Nq - 18.401| < 0.0005 ∧ |(EC7 30).Nc - 30.14| < 0.005) := by
  obtain ⟨hl, hu⟩ := three_exp_bounds
  have h1 := sqrt_three_gt
  have h2 := sqrt_three_lt
  have hq : |(meyerhof 30).Nq - 18.401| < 0.0005 := by
    rw [meyerhof_Nq_thirty, abs_lt]
    constructor <;> linarith
  have hc : |(meyerhof 30).Nc - 30.14| < 0.005 := by
    rw [meyerhof_Nc_thirty, abs_lt]
    constructor <;> nlinarith
  refine ⟨⟨meyerhof_Nq_thirty, ?_⟩, ⟨hq, hc⟩, ⟨hq, hc⟩, ⟨hq, hc⟩, ⟨hq, hc⟩⟩
  rw [meyerhof_Nc_thirty, meyerhof_Nq_thirty]

/-! ## C6: `Ngamma` at `phi = 30` -/

/-- C6: at `phi = 30`, `Ngamma` is within 0.05 of 22.4 for `vesic`, within 0.05
of 15.1 for `hansen` and within 0.05 of 20.1 for `EC7`. -/
theorem Ngamma_at_thirty :
    |(vesic 30).Ngamma - 22.4| < 0.05 ∧ |(hansen 30).Ngamma - 15.1| < 0.05 ∧
      |(EC7 30).Ngamma - 20.1| < 0.05 := by
  obtain ⟨hl, hu⟩ := three_exp_bounds
  have h1 := sqrt_three_gt
  have h2 := sqrt_three_lt
  have hs : (0 : ℝ) < Real.sqrt 3 := by linarith
  have hr1 : (0.57735 : ℝ) < 1 / Real.sqrt 3 := by
    rw [lt_div_iff₀ hs]
    nlinarith
  have hr2 : 1 / Real.sqrt 3 < (0.577351 : ℝ) := by
    rw [div_lt_iff₀ hs]
    nlinarith
  have hq := meyerhof_Nq_thirty
  have hv : (vesic 30).Ngamma = 2 * ((meyerhof 30).Nq + 1) * (1 / Real.sqrt 3) := by
    rw [← tan_rad_thirty]
    simp only [vesic, meyerhof, M_PI]
    norm_num
  have hh : (hansen 30).Ngamma = 1.5 * ((meyerhof 30).Nq - 1) * (1 / Real.sqrt 3) := by
    rw [← tan_rad_thirty]
    simp only [hansen, meyerhof, M_PI]
    norm_num
  have he : (EC7 30).Ngamma = 2 * ((meyerhof 30).Nq - 1) * (1 / Real.sqrt 3) := by
    rw [← tan_rad_thirty]
    simp only [EC7, meyerhof, M_PI]
    norm_num
  rw [hv, hh, he, hq]
  set r := 1 / Real.sqrt 3
  set q := 3 * Real.exp (π / Real.sqrt 3)
  refine ⟨?_, ?_, ?_⟩
  · rw [abs_lt]
    constructor <;> nlinarith
  · rw [abs_lt]
    constructor <;> nlinarith
  · rw [abs_lt]
    constructor <;> nlinarith

/-! ## C7, C8, C9: the source functions are the specified closed forms -/

/-- C7: for every real `phi`, `terzaghi phi` is the specified closed form with
the angles converted from degrees to radians; `Nc` is `(Nq - 1) (1 / tan phi)`
when `phi > 0` and 5.71 for every `phi ≤ 0`. -/
theorem terzaghi_eq_closed_form (phi : ℝ) :
    terzaghi phi = terzaghi_closed_form phi ∧
    (0 < phi → (terzaghi phi).Nc
      = (terzaghi_Nq_closed_form phi - 1) * (1 / Real.tan (deg2rad phi))) ∧
    (phi ≤ 0 → (terzaghi phi).Nc = 5.71) := by
  have hq : (terzaghi phi).Nq = terzaghi_Nq_closed_form phi := by
    rw [terzaghi_Nq]
    simp only [terzaghi_Nq_closed_form, deg2rad]
    ring
  have hpos : 0 < phi → (terzaghi phi).Nc
      = (terzaghi_Nq_closed_form phi - 1) * (1 / Real.tan (deg2rad phi)) := by
    intro h
    rw [← hq]
    simp only [terzaghi, M_PI, deg2rad, gt_iff_lt, h, if_true]
    norm_num
  have hneg : phi ≤ 0 → (terzaghi phi).Nc = 5.71 := by
    intro h
    simp only [terzaghi, gt_iff_lt, not_lt.mpr h, if_false]
  refine ⟨?_, hpos, hneg⟩
  ext
  · by_cases h : phi ≤ 0
    · rw [hneg h]
      simp only [terzaghi_closed_form, h, if_true]
    · rw [hpos (not_le.mp h)]
      simp only [terzaghi_closed_form, h, if_false]
  · exact hq
  · have hg : (terzaghi phi).Ngamma = 2 * ((terzaghi phi).Nq + 1) * Real.tan (phi * π / 180)
        / (1 + 0.4 * Real.sin (4 * phi * π / 180)) := by
      simp only [terzaghi, M_PI]
      norm_num
    rw [hg, hq]
    simp only [terzaghi_closed_form, deg2rad]

/-- C8: for every real `phi`, `meyerhof phi` is the specified closed form;
`Nc` is `(Nq - 1) (1 / tan phi)` when `phi > 0` and 5.14 for every `phi ≤ 0`,
and `Ngamma` takes the tangent of `1.4 phi` degrees, that is of
`1.4 * phi * π / 180`. -/
theorem meyerhof_eq_closed_form (phi : ℝ) :
    meyerhof phi = meyerhof_closed_form phi ∧
    (0 < phi → (meyerhof phi).Nc
      = (shared_Nq_closed_form phi - 1) * (1 / Real.tan (deg2rad phi))) ∧
    (phi ≤ 0 → (meyerhof phi).Nc = 5.14) ∧
    (meyerhof phi).Ngamma
      = (shared_Nq_closed_form phi - 1) * Real.tan (1.4 * phi * π / 180) := by
  have hq : (meyerhof phi).Nq = shared_Nq_closed_form phi := by
    rw [meyerhof_Nq]
    simp only [shared_Nq_closed_form, deg2rad]
  have hpos : 0 < phi → (meyerhof phi).Nc
      = (shared_Nq_closed_form phi - 1) * (1 / Real.tan (deg2rad phi)) := by
    intro h
    rw [← hq]
    simp only [meyerhof, M_PI, deg2rad, gt_iff_lt, h, if_true]
    norm_num
  have hneg : phi ≤ 0 → (meyerhof phi).Nc = 5.14 := by
    intro h
    simp only [meyerhof, gt_iff_lt, not_lt.mpr h, if_false]
  have hg : (meyerhof phi).Ngamma
      = (shared_Nq_closed_form phi - 1) * Real.tan (1.4 * phi * π / 180) := by
    rw [← hq]
    have : (meyerhof phi).Ngamma = ((meyerhof phi).Nq - 1) * Real.tan (phi * 1.4 * π / 180) := by
      simp only [meyerhof, M_PI]
      norm_num
    rw [this, mul_comm phi 1.4]
  refine ⟨?_, hpos, hneg, hg⟩
  ext
  · by_cases h : phi ≤ 0
    · rw [hneg h]
      simp only [meyerhof_closed_form, h, if_true]
    · rw [hpos (not_le.mp h)]
      simp only [meyerhof_closed_form, h, if_false]
  · exact hq
  · rw [hg]
    simp only [meyerhof_closed_form, deg2rad]

/-- C9: for every real `phi`, with `Nq` the shared Meyerhof/Vesic value and the
tangent taken of `phi * π / 180`, `vesic` returns `Ngamma = 2 (Nq + 1) tan phi`,
`hansen` returns `Ngamma = 1.5 (Nq - 1) tan phi` and `EC7` returns
`Ngamma = 2 (Nq - 1) tan phi`. -/
theorem Ngamma_closed_forms (phi : ℝ) :
    ((vesic phi).Nq = shared_Nq_closed_form phi ∧
      (vesic phi).Ngamma = 2 * (shared_Nq_closed_form phi + 1) * Real.tan (phi * π / 180)) ∧
    ((hansen phi).Nq = shared_Nq_closed_form phi ∧
      (hansen phi).Ngamma = 1.5 * (shared_Nq_closed_form phi - 1) * Real.tan (phi * π / 180)) ∧
    ((EC7 phi).Nq = shared_Nq_closed_form phi ∧
      (EC7 phi).Ngamma = 2 * (shared_Nq_closed_form phi - 1) * Real.tan (phi * π / 180)) := by
  have hq : (meyerhof phi).Nq = shared_Nq_closed_form phi := by
    rw [meyerhof_Nq]
    simp only [shared_Nq_closed_form, deg2rad]
  have hv : (vesic phi).Nq = (meyerhof phi).Nq := rfl
  have hh : (hansen phi).Nq = (meyerhof phi).Nq := rfl
  have he : (EC7 phi).Nq = (meyerhof phi).Nq := rfl
  refine ⟨⟨hv.trans hq, ?_⟩, ⟨hh.trans hq, ?_⟩, ⟨he.trans hq, ?_⟩⟩
  · rw [← hq]
    simp only [vesic, meyerhof, M_PI]
    norm_num
  · rw [← hq]
    simp only [hansen, meyerhof, M_PI]
    norm_num
  · rw [← hq]
    simp only [EC7, meyerhof, M_PI]
    norm_num

/-! ## C10: the limit of Terzaghi's `Nc` at `phi = 0` -/

open Filter Topology

theorem terzaghi_Nc_of_pos {phi : ℝ} (h : 0 < phi) :
    (terzaghi phi).Nc = ((terzaghi phi).Nq - 1) * (1 / Real.tan (phi * π / 180)) := by
  simp only [terzaghi, M_PI, gt_iff_lt, h, if_true]
  norm_num

theorem meyerhof_Nc_of_pos {phi : ℝ} (h : 0 < phi) :
    (meyerhof phi).Nc = ((meyerhof phi).Nq - 1) * (1 / Real.tan (phi * π / 180)) := by
  simp only [meyerhof, M_PI, gt_iff_lt, h, if_true]
  norm_num

theorem terzaghi_Ngamma (phi : ℝ) :
    (terzaghi phi).Ngamma = 2 * ((terzaghi phi).Nq + 1) * Real.tan (phi * π / 180)
      / (1 + 0.4 * Real.sin (4 * phi * π / 180)) := by
  simp only [terzaghi, M_PI]
  norm_num

theorem meyerhof_Ngamma (phi : ℝ) :
    (meyerhof phi).Ngamma = ((meyerhof phi).Nq - 1) * Real.tan (phi * 1.4 * π / 180) := by
  simp only [meyerhof, M_PI]
  norm_num

theorem vesic_Ngamma (phi : ℝ) :
    (vesic phi).Ngamma = 2 * ((meyerhof phi).Nq + 1) * Real.tan (phi * π / 180) := by
  simp only [vesic, meyerhof, M_PI]
  norm_num

theorem hansen_Ngamma (phi : ℝ) :
    (hansen phi).Ngamma = 1.5 * ((meyerhof phi).Nq - 1) * Real.tan (phi * π / 180) := by
  simp only [hansen, meyerhof, M_PI]
  norm_num

theorem EC7_Ngamma (phi : ℝ) :
    (EC7 phi).Ngamma = 2 * ((meyerhof phi).Nq - 1) * Real.tan (phi * π / 180) := by
  simp only [EC7, meyerhof, M_PI]
  norm_num

/-! ## C11: the limit of the shared `Nc` at `phi = 0` -/

theorem denominator_g_eq (phi : ℝ) :
    denominator_g phi = 1 + 0.4 * Real.sin (4 * phi * π / 180) := by
  simp only [denominator_g, M_PI]
  norm_num

/-- The divisor of Terzaghi's `Ngamma` is at least 0.6 at every angle. -/
theorem denominator_g_ge (phi : ℝ) : 0.6 ≤ denominator_g phi := by
  rw [denominator_g_eq]
  have := Real.neg_one_le_sin (4 * phi * π / 180)
  norm_num
  linarith

/-- On `(0, 90)` the cosine of `45° + phi/2` lies strictly between 0 and `cos 45°`. -/
theorem cos_half_rad_bounds {phi : ℝ} (h0 : 0 < phi) (h90 : phi < 90) :
    0 < Real.cos ((45 + phi / 2) * π / 180) ∧
      Real.cos ((45 + phi / 2) * π / 180) ^ 2 < 1 / 2 := by
  have hpi := Real.pi_pos
  have hb1 := half_rad_gt h0
  have hb2 := half_rad_lt h90
  have hpos : 0 < Real.cos ((45 + phi / 2) * π / 180) :=
    Real.cos_pos_of_mem_Ioo ⟨by linarith, hb2⟩
  have hlt : Real.cos ((45 + phi / 2) * π / 180) < Real.cos (π / 4) :=
    Real.cos_lt_cos_of_nonneg_of_le_pi_div_two (by linarith) hb2.le hb1
  have hc : Real.cos (π / 4) ^ 2 = 1 / 2 := by
    rw [Real.cos_pi_div_four, div_pow, Real.sq_sqrt (by norm_num)]
    norm_num
  refine ⟨hpos, ?_⟩
  rw [← hc]
  exact pow_lt_pow_left₀ hlt hpos.le two_ne_zero

/-- On `(0, 90)` the tangent of `45° + phi/2` exceeds 1. -/
theorem one_lt_tan_half_rad {phi : ℝ} (h0 : 0 < phi) (h90 : phi < 90) :
    1 < Real.tan ((45 + phi / 2) * π / 180) := by
  have hpi := Real.pi_pos
  rw [← Real.tan_pi_div_four]
  exact Real.tan_lt_tan_of_lt_of_lt_pi_div_two (by linarith) (half_rad_lt h90) (half_rad_gt h0)

theorem meyerhof_Nq_gt_one {phi : ℝ} (h0 : 0 < phi) (h90 : phi < 90) :
    1 < (meyerhof phi).Nq := by
  rw [meyerhof_Nq]
  have ht := tan_rad_pos h0 h90
  have he : 1 < Real.exp (π * Real.tan (phi * π / 180)) :=
    Real.one_lt_exp_iff.mpr (mul_pos Real.pi_pos ht)
  have hb := one_lt_tan_half_rad h0 h90
  have hsq : 1 < Real.tan ((45 + phi / 2) * π / 180) ^ 2 := by nlinarith
  nlinarith

theorem terzaghi_Nq_gt_one {phi : ℝ} (h0 : 0 < phi) (h90 : phi < 90) :
    1 < (terzaghi phi).Nq := by
  rw [terzaghi_Nq]
  have ht := tan_rad_pos h0 h90
  have hpi := Real.pi_pos
  have hfac : 0 < π * (0.75 - phi / 360) := by
    apply mul_pos hpi
    norm_num
    linarith
  have he : 1 < Real.exp (π * (0.75 - phi / 360) * Real.tan (phi * π / 180)) :=
    Real.one_lt_exp_iff.mpr (mul_pos hfac ht)
  obtain ⟨hc0, hc2⟩ := cos_half_rad_bounds h0 h90
  have hden : 0 < 2 * Real.cos ((45 + phi / 2) * π / 180) ^ 2 := by positivity
  rw [one_lt_div hden]
  nlinarith

/-! ## C13: the divisors do not vanish on `(0, 90)` -/

/-- Twice the squared sine of `45° + phi/2` is `1 + sin phi`. -/
theorem two_sin_sq_half_rad (phi : ℝ) :
    2 * Real.sin ((45 + phi / 2) * π / 180) ^ 2 = 1 + Real.sin (phi * π / 180) := by
  have h2 : 2 * ((45 + phi / 2) * π / 180) = phi * π / 180 + π / 2 := by ring
  have hcos := Real.cos_sq' ((45 + phi / 2) * π / 180)
  have hdouble := Real.cos_two_mul ((45 + phi / 2) * π / 180)
  rw [h2, Real.cos_add_pi_div_two] at hdouble
  nlinarith

/-- On `(0, 90)` the shared `Nq` is below Terzaghi's: their quotient is
`exp ((π/2 - x) tan x) / (1 + sin x)` with `x = phi π / 180`. -/
theorem shared_Nq_lt_terzaghi_Nq {phi : ℝ} (h0 : 0 < phi) (h90 : phi < 90) :
    (meyerhof phi).Nq < (terzaghi phi).Nq := by
  have hpi := Real.pi_pos
  rw [terzaghi_Nq, meyerhof_Nq]
  obtain ⟨hc0, _⟩ := cos_half_rad_bounds h0 h90
  have hx0 := rad_pos h0
  have hx90 := rad_lt_half_pi h90
  have ht := tan_rad_pos h0 h90
  set x := phi * π / 180 with hx
  set B := (45 + phi / 2) * π / 180 with hB
  set t := Real.tan x with htdef
  have hden : 0 < 2 * Real.cos B ^ 2 := by positivity
  rw [lt_div_iff₀ hden]
  have htanB : Real.tan B * Real.cos B = Real.sin B := Real.tan_mul_cos hc0.ne'
  have hsin : 2 * Real.sin B ^ 2 = 1 + Real.sin x := two_sin_sq_half_rad phi
  have hlhs : Real.exp (π * t) * Real.tan B ^ 2 * (2 * Real.cos B ^ 2)
      = Real.exp (π * t) * (1 + Real.sin x) := by
    rw [← hsin, ← htanB]
    ring
  have hrhs : Real.exp (π * (0.75 - phi / 360) * t) * Real.exp (π * (0.75 - phi / 360) * t)
      = Real.exp (π * t) * Real.exp ((π / 2 - x) * t) := by
    rw [← Real.exp_add, ← Real.exp_add]
    congr 1
    rw [hx]
    ring
  rw [hlhs, hrhs]
  apply mul_lt_mul_of_pos_left _ (Real.exp_pos _)
  have hcosx : Real.cos x < π / 2 - x := by
    rw [← Real.sin_pi_div_two_sub]
    exact Real.sin_lt (by linarith)
  have hcx : 0 < Real.cos x := Real.cos_pos_of_mem_Ioo ⟨by linarith, hx90⟩
  have hsx : Real.sin x = t * Real.cos x := by
    rw [htdef, Real.tan_mul_cos hcx.ne']
  have hlin : Real.sin x < (π / 2 - x) * t := by
    rw [hsx]
    nlinarith
  have hexp := Real.add_one_le_exp ((π / 2 - x) * t)
  linarith

/-- The tangent of the angle in radians exceeds every bound close enough to 90
degrees from below. -/
theorem tan_rad_unbounded (B : ℝ) :
    ∃ δ : ℝ, 0 < δ ∧ δ ≤ 10 ∧
      ∀ phi : ℝ, 90 - δ < phi → phi < 90 → B < Real.tan (phi * π / 180) := by
  have hpi := Real.pi_pos
  have ha1 := Real.arctan_lt_pi_div_two B
  have ha2 := Real.neg_pi_div_two_lt_arctan B
  have hgap : 0 < (π / 2 - Real.arctan B) * 180 / π := by
    have : 0 < π / 2 - Real.arctan B := by linarith
    positivity
  refine ⟨min 10 ((π / 2 - Real.arctan B) * 180 / π), lt_min (by norm_num) hgap,
    min_le_left _ _, ?_⟩
  intro phi hlo hhi
  have hδ : 90 - (π / 2 - Real.arctan B) * 180 / π < phi :=
    lt_of_le_of_lt (by linarith [min_le_right (10 : ℝ) ((π / 2 - Real.arctan B) * 180 / π)]) hlo
  have hx : Real.arctan B < phi * π / 180 := by
    have h1 : (90 - (π / 2 - Real.arctan B) * 180 / π) * π / 180 = Real.arctan B := by
      field_simp
      ring
    rw [← h1]
    exact rad_lt_rad hδ
  have := Real.tan_lt_tan_of_lt_of_lt_pi_div_two ha2 (rad_lt_half_pi hhi) hx
  rwa [Real.tan_arctan] at this

/-- On `(0, 90)` the shared `Nq` exceeds `1 + tan² phi`. -/
theorem meyerhof_Nq_sub_one_gt {phi : ℝ} (h0 : 0 < phi) (h90 : phi < 90) :
    Real.tan (phi * π / 180) ^ 2 < (meyerhof phi).Nq - 1 := by
  have ht := tan_rad_pos h0 h90
  have hpi := Real.pi_gt_three
  rw [meyerhof_Nq]
  set t := Real.tan (phi * π / 180)
  have hhalf := Real.add_one_le_exp (π * t / 2)
  have hsplit : Real.exp (π * t) = Real.exp (π * t / 2) * Real.exp (π * t / 2) := by
    rw [← Real.exp_add]
    congr 1
    ring
  have hpos : 0 < π * t / 2 := by positivity
  have hexp : 1 + t ^ 2 < Real.exp (π * t) := by
    rw [hsplit]
    have hsq := mul_self_le_mul_self (by positivity) hhalf
    have hy : 3 / 2 * t < π * t / 2 := by nlinarith
    have hy2 : t ^ 2 < (π * t / 2) ^ 2 := by nlinarith
    nlinarith
  have hb := one_lt_tan_half_rad h0 h90
  have hsq : 1 < Real.tan ((45 + phi / 2) * π / 180) ^ 2 := by nlinarith
  nlinarith [Real.exp_pos (π * t)]

/-- Between 80 and 90 degrees the tangent of `1.4 phi` degrees is below `-1`. -/
theorem tan_rad_scaled_lt_neg_one {phi : ℝ} (h80 : 80 < phi) (h90 : phi < 90) :
    Real.tan (phi * 1.4 * π / 180) < -1 := by
  have hpi := Real.pi_pos
  have h := Real.tan_pi_sub (phi * 1.4 * π / 180)
  have h1 : 1 < Real.tan (π - phi * 1.4 * π / 180) := by
    rw [← Real.tan_pi_div_four]
    apply Real.tan_lt_tan_of_lt_of_lt_pi_div_two
    · linarith
    · norm_num
      nlinarith
    · norm_num
      nlinarith
  linarith

/-- A quotient `(q - 1) (1 / t)` with `t² < q - 1` exceeds `t`. -/
theorem lt_abs_quot {B t q : ℝ} (ht0 : 0 < t) (hB : B < t) (hq : t ^ 2 < q - 1) :
    B < |(q - 1) * (1 / t)| := by
  refine lt_of_lt_of_le ?_ (le_abs_self _)
  have h2 : t ^ 2 * (1 / t) < (q - 1) * (1 / t) :=
    mul_lt_mul_of_pos_right hq (one_div_pos.mpr ht0)
  have h3 : t ^ 2 * (1 / t) = t := by
    field_simp
    ring
  linarith

/-- A product `(q - 1) s` with `t² < q - 1`, `1 < t` and `s < -1` is below `-t`. -/
theorem lt_abs_mul_neg {B t q s : ℝ} (ht1 : 1 < t) (hB : B < t) (hq : t ^ 2 < q - 1)
    (hs : s < -1) : B < |(q - 1) * s| := by
  refine lt_of_lt_of_le ?_ (neg_le_abs _)
  have h1 : t < t ^ 2 := by nlinarith
  have h2 : 0 < q - 1 := by nlinarith
  nlinarith

/-- A product `c (q ± 1) t` with `t² < q - 1`, `1 < t` and `1 ≤ c` exceeds `t`. -/
theorem lt_abs_mul_pos {B t q c : ℝ} (ht1 : 1 < t) (hB : B < t) (hq : 1 < q)
    (hc : 1 ≤ c) : B < |c * q * t| := by
  refine lt_of_lt_of_le ?_ (le_abs_self _)
  have h1 : 1 < c * q := by nlinarith
  nlinarith

/-- A quotient `2 (q + 1) t / g` with `0.6 ≤ g ≤ 1.4`, `1 < t` and `1 < q` exceeds `t`. -/
theorem lt_abs_div {B t q g : ℝ} (ht1 : 1 < t) (hB : B < t) (hq : 1 < q)
    (hg1 : 0.6 ≤ g) (hg2 : g ≤ 1.4) : B < |2 * (q + 1) * t / g| := by
  refine lt_of_lt_of_le ?_ (le_abs_self _)
  have hgpos : 0 < g := by
    have : (0 : ℝ) < 0.6 := by norm_num
    linarith
  have ht0 : 0 < t := by linarith
  rw [lt_div_iff₀ hgpos]
  have hnum : 1.4 * t < 2 * (q + 1) * t := by nlinarith
  by_cases hB0 : 0 ≤ B
  · have : B * g ≤ t * 1.4 := mul_le_mul hB.le hg2 hgpos.le ht0.le
    linarith
  · have h1 : B * g < 0 := mul_neg_of_neg_of_pos (not_le.mp hB0) hgpos
    have h2 : 0 < 2 * (q + 1) * t := by nlinarith
    linarith

/-- One angle's worth of C12: where `tan (phi π / 180)` exceeds `max B 1` and
`80 < phi < 90`, every factor of every method exceeds `B` in absolute value. -/
theorem factors_gt_of_tan_gt {B phi : ℝ} (h80 : 80 < phi) (h90 : phi < 90)
    (hB : max B 1 < Real.tan (phi * π / 180)) :
    (B < (terzaghi phi).Nq ∧ B < |(terzaghi phi).Nc| ∧ B < |(terzaghi phi).Ngamma|) ∧
    (B < (meyerhof phi).Nq ∧ B < |(meyerhof phi).Nc| ∧ B < |(meyerhof phi).Ngamma|) ∧
    (B < (vesic phi).Nq ∧ B < |(vesic phi).Nc| ∧ B < |(vesic phi).Ngamma|) ∧
    (B < (hansen phi).Nq ∧ B < |(hansen phi).Nc| ∧ B < |(hansen phi).Ngamma|) ∧
    (B < (EC7 phi).Nq ∧ B < |(EC7 phi).Nc| ∧ B < |(EC7 phi).Ngamma|) := by
  have h0 : 0 < phi := by linarith
  have htB : B < Real.tan (phi * π / 180) := lt_of_le_of_lt (le_max_left _ _) hB
  have ht1 : 1 < Real.tan (phi * π / 180) := lt_of_le_of_lt (le_max_right _ _) hB
  have ht0 : 0 < Real.tan (phi * π / 180) := by linarith
  have htt : Real.tan (phi * π / 180) < Real.tan (phi * π / 180) ^ 2 := by nlinarith
  have hM := meyerhof_Nq_sub_one_gt h0 h90
  have hTM := shared_Nq_lt_terzaghi_Nq h0 h90
  have hT : Real.tan (phi * π / 180) ^ 2 < (terzaghi phi).Nq - 1 := by linarith
  have hM1 : 1 < (meyerhof phi).Nq := meyerhof_Nq_gt_one h0 h90
  have hT1 : 1 < (terzaghi phi).Nq := terzaghi_Nq_gt_one h0 h90
  have hqM : B < (meyerhof phi).Nq := by linarith
  have hqT : B < (terzaghi phi).Nq := by linarith
  have hcM : B < |(meyerhof phi).Nc| := by
    rw [meyerhof_Nc_of_pos h0]
    exact lt_abs_quot ht0 htB hM
  have hcT : B < |(terzaghi phi).Nc| := by
    rw [terzaghi_Nc_of_pos h0]
    exact lt_abs_quot ht0 htB hT
  have hgM : B < |(meyerhof phi).Ngamma| := by
    rw [meyerhof_Ngamma]
    exact lt_abs_mul_neg ht1 htB hM (tan_rad_scaled_lt_neg_one h80 h90)
  have hgV : B < |(vesic phi).Ngamma| := by
    rw [vesic_Ngamma]
    exact lt_abs_mul_pos ht1 htB (by linarith) (by norm_num)
  have hgH : B < |(hansen phi).Ngamma| := by
    rw [hansen_Ngamma]
    have h2 : 1 < (meyerhof phi).Nq - 1 := by linarith
    exact lt_abs_mul_pos ht1 htB h2 (by norm_num)
  have hgE : B < |(EC7 phi).Ngamma| := by
    rw [EC7_Ngamma]
    have h2 : 1 < (meyerhof phi).Nq - 1 := by linarith
    exact lt_abs_mul_pos ht1 htB h2 (by norm_num)
  have hgT : B < |(terzaghi phi).Ngamma| := by
    rw [terzaghi_Ngamma]
    have hg1 := denominator_g_ge phi
    rw [denominator_g_eq] at hg1
    have hg2 : 1 + 0.4 * Real.sin (4 * phi * π / 180) ≤ 1.4 := by
      have := Real.sin_le_one (4 * phi * π / 180)
      norm_num
      linarith
    exact lt_abs_div ht1 htB hT1 hg1 hg2
  exact ⟨⟨hqT, hcT, hgT⟩, ⟨hqM, hcM, hgM⟩, ⟨hqM, hcM, hgV⟩, ⟨hqM, hcM, hgH⟩,
    ⟨hqM, hcM, hgE⟩⟩

/-- C12: as `phi` tends to 90 from below all three factors of every method
diverge: for every bound `B` there is a `δ > 0` such that `90 - δ < phi < 90`
implies `Nq > B`, `|Nc| > B` and `|Ngamma| > B`, for each of `terzaghi`,
`meyerhof`, `vesic`, `hansen` and `EC7`. -/
theorem factors_diverge (B : ℝ) :
    ∃ δ : ℝ, 0 < δ ∧ ∀ phi : ℝ, 90 - δ < phi → phi < 90 →
      (B < (terzaghi phi).Nq ∧ B < |(terzaghi phi).Nc| ∧ B < |(terzaghi phi).Ngamma|) ∧
      (B < (meyerhof phi).Nq ∧ B < |(meyerhof phi).Nc| ∧ B < |(meyerhof phi).Ngamma|) ∧
      (B < (vesic phi).Nq ∧ B < |(vesic phi).Nc| ∧ B < |(vesic phi).Ngamma|) ∧
      (B < (hansen phi).Nq ∧ B < |(hansen phi).Nc| ∧ B < |(hansen phi).Ngamma|) ∧
      (B < (EC7 phi).Nq ∧ B < |(EC7 phi).Nc| ∧ B < |(EC7 phi).Ngamma|) := by
  obtain ⟨δ, hδ0, hδ10, htan⟩ := tan_rad_unbounded (max B 1)
  refine ⟨δ, hδ0, ?_⟩
  intro phi hlo hhi
  exact factors_gt_of_tan_gt (by linarith) hhi (htan phi hlo hhi)

/-! ## The exact tangent and cosine at the double `M_PI / 4` -/

/-- Arithmetic behind `exact_at_quarterPi`: with `e = π/4 - M_PI/4`, a tangent
`T` of `e` between `e` and `2 e`, and `1 - ta = T (1 + ta)`, the value `ta` is
within `2^-54` of `1 - 2^-53`; and `r/2 * u` with `r = √2`, `u = cos e + sin e`
is within `2^-54` of `0x1.6a09e667f3bcdp-1`. -/
theorem quarter_arith {e T ta r u : ℝ} (he1 : 30615 / 10 ^ 21 < e) (he2 : e < 30619 / 10 ^ 21)
    (hT1 : e < T) (hT2 : T < 2 * e) (hta0 : 0 < ta) (hsub : 1 - ta = T * (1 + ta))
    (hr1 : 141421356237309504880 / 10 ^ 20 < r) (hr2 : r < 141421356237309504881 / 10 ^ 20)
    (hu1 : u < 1 + e) (hu2 : 1 - e ^ 2 / 2 < u) :
    |ta - (1 - 1 / 2 ^ 53)| < 1 / 2 ^ 54 ∧ |r / 2 * u - 0x16a09e667f3bcd / 2 ^ 53| < 1 / 2 ^ 54 := by
  have he0 : 0 < e := lt_trans (by norm_num) he1
  have hT0 : 0 < T := lt_trans he0 hT1
  have hr0 : 0 < r := lt_trans (by norm_num) hr1
  have hu0 : 0 < u := by
    have : e ^ 2 / 2 < 1 := by
      have h1 : e < 1 := lt_trans he2 (by norm_num)
      have h2 : e ^ 2 < 1 := by
        rw [sq]
        exact mul_lt_one_of_nonneg_of_lt_one_left he0.le h1 h1.le
      linarith
    linarith
  constructor
  · have hpos : 0 < T * (1 + ta) := mul_pos hT0 (by linarith)
    have hta1 : ta < 1 := by linarith
    have h1 : T * (1 + ta) < T * 2 := mul_lt_mul_of_pos_left (by linarith) hT0
    have hup : 1 - ta < 4 * e := by linarith
    have h2 : e * (1 + ta) < T * (1 + ta) := mul_lt_mul_of_pos_right hT1 (by linarith)
    have h3 : e * (19 / 10) < e * (1 + ta) := by
      apply mul_lt_mul_of_pos_left _ he0
      have : 4 * e < 1 / 10 := by
        have := lt_trans he2 (show (30619 / 10 ^ 21 : ℝ) < 1 / 40 by norm_num)
        linarith
      linarith
    have h4 : (30615 / 10 ^ 21 : ℝ) * (19 / 10) < e * (19 / 10) :=
      mul_lt_mul_of_pos_right he1 (by norm_num)
    have hlo : (30615 / 10 ^ 21 : ℝ) * (19 / 10) < 1 - ta := by linarith
    have hup2 : 1 - ta < 4 * (30619 / 10 ^ 21 : ℝ) := by linarith
    rw [abs_lt]
    clear h1 h2 h3 h4 hpos hsub hT1 hT2 hu1 hu2 hr1 hr2 he1 he2 hup
    norm_num at hlo hup2 ⊢
    constructor <;> linarith
  · have h1 : r / 2 * u < r / 2 * (1 + e) := mul_lt_mul_of_pos_left hu1 (by positivity)
    have h2 : r / 2 * (1 + e) < 141421356237309504881 / 10 ^ 20 / 2 * (1 + 30619 / 10 ^ 21) :=
      mul_lt_mul'' (by linarith) (by linarith) (by positivity) (by positivity)
    have hesq : e ^ 2 / 2 < 1 / 10 ^ 30 := by
      have : e ^ 2 < (30619 / 10 ^ 21 : ℝ) ^ 2 := pow_lt_pow_left₀ he2 he0.le two_ne_zero
      have : (30619 / 10 ^ 21 : ℝ) ^ 2 < 2 / 10 ^ 30 := by norm_num
      linarith
    have h3 : r / 2 * (1 - 1 / 10 ^ 30) < r / 2 * u :=
      mul_lt_mul_of_pos_left (by linarith) (by positivity)
    have h4 : 141421356237309504880 / 10 ^ 20 / 2 * (1 - 1 / 10 ^ 30) < r / 2 * (1 - 1 / 10 ^ 30) :=
      mul_lt_mul_of_pos_right (by linarith) (by norm_num)
    have hup : r / 2 * u < 141421356237309504881 / 10 ^ 20 / 2 * (1 + 30619 / 10 ^ 21) := by
      linarith
    have hlo : 141421356237309504880 / 10 ^ 20 / 2 * (1 - 1 / 10 ^ 30) < r / 2 * u := by
      linarith
    rw [abs_lt]
    clear h1 h2 h3 h4 hesq hsub hT1 hT2 hu1 hu2 hr1 hr2 he1 he2
    norm_num at hlo hup ⊢
    constructor <;> linarith

/-- The exact tangent and cosine of the double `M_PI / 4 = 884279719003555 / 2^50`
are within half a unit in the last place (`2^-54`) of the doubles `1 - 2^-53`
and `0x1.6a09e667f3bcdp-1`: these are the correctly rounded values that
`RoundsAtQuarterPi` asks of the libm. -/
theorem exact_at_quarterPi :
    |Real.tan (884279719003555 / 2 ^ 50) - (1 - 1 / 2 ^ 53)| < 1 / 2 ^ 54 ∧
    |Real.cos (884279719003555 / 2 ^ 50) - 0x16a09e667f3bcd / 2 ^ 53| < 1 / 2 ^ 54 := by
  have hpl := Real.pi_gt_d20
  have hpu := Real.pi_lt_d20
  obtain ⟨a, ha⟩ : ∃ a : ℝ, a = 884279719003555 / 2 ^ 50 := ⟨_, rfl⟩
  obtain ⟨e, he⟩ : ∃ e : ℝ, e = π / 4 - a := ⟨_, rfl⟩
  rw [← ha]
  have he1 : (30615 / 10 ^ 21 : ℝ) < e := by
    rw [he, ha]
    norm_num at hpl ⊢
    linarith
  have he2 : e < (30619 / 10 ^ 21 : ℝ) := by
    rw [he, ha]
    norm_num at hpu ⊢
    linarith
  have he0 : 0 < e := lt_trans (by norm_num) he1
  have he3 : e < 1 := lt_trans he2 (by norm_num)
  have hpi3 := Real.pi_gt_three
  have hsin : Real.sin e < e := Real.sin_lt he0
  have hsin0 : 0 < Real.sin e := Real.sin_pos_of_pos_of_lt_pi he0 (by linarith)
  have hcos1 : Real.cos e ≤ 1 := Real.cos_le_one e
  have hcos2 : 1 - e ^ 2 / 2 ≤ Real.cos e := Real.one_sub_sq_div_two_le_cos
  have hesq : e ^ 2 < 1 := by
    rw [sq]
    exact mul_lt_one_of_nonneg_of_lt_one_left he0.le he3 he3.le
  have hcos3 : (1 / 2 : ℝ) < Real.cos e := by linarith
  have hae : a = π / 4 - e := by rw [he]; ring
  have hea : π / 4 - a = e := he.symm
  have hT1 : e < Real.tan e := Real.lt_tan he0 (by linarith)
  have hT2 : Real.tan e < 2 * e := by
    rw [Real.tan_eq_sin_div_cos, div_lt_iff₀ (by linarith)]
    have : e < 2 * e * Real.cos e := by
      have := mul_lt_mul_of_pos_left hcos3 (show (0 : ℝ) < 2 * e by linarith)
      linarith
    linarith
  have ha0 : 0 < a := by rw [ha]; positivity
  have hapi : a < π / 2 := by linarith
  have hca : 0 < Real.cos a := Real.cos_pos_of_mem_Ioo ⟨by linarith, hapi⟩
  have hcq : 0 < Real.cos (π / 4) := Real.cos_pos_of_mem_Ioo ⟨by linarith, by linarith⟩
  have hsub := tan_sub_eq hca.ne' hcq.ne' (by rw [hea]; linarith)
  rw [hea, Real.tan_pi_div_four, mul_one] at hsub
  have hta0 : 0 < Real.tan a := Real.tan_pos_of_pos_of_lt_pi_div_two ha0 hapi
  have hs2l : (141421356237309504880 / 10 ^ 20 : ℝ) < Real.sqrt 2 := by
    rw [Real.lt_sqrt (by norm_num)]
    norm_num
  have hs2u : Real.sqrt 2 < (141421356237309504881 / 10 ^ 20 : ℝ) := by
    rw [Real.sqrt_lt' (by norm_num)]
    norm_num
  have hcosa : Real.cos a = Real.sqrt 2 / 2 * (Real.cos e + Real.sin e) := by
    rw [hae, Real.cos_sub, Real.cos_pi_div_four, Real.sin_pi_div_four]
    ring
  rw [hcosa]
  exact quarter_arith he1 he2 hT1 hT2 hta0 hsub hs2l hs2u (by linarith) (by linarith)

/-! ## The returned doubles at the least positive angles -/

namespace IEEE

end IEEE

namespace IEEE

end IEEE

end TriFactor
